/-
Verification of the OasisDB stress/monitoring harness
(`script/log_monitor.py` and `script/compact_test.py`).

The Python source is shallowly embedded:

* JSON values are the inductive type `JValue`; a Python `dict` produced by
  `json.loads` is a `JDict` (association list, later duplicate keys win on
  lookup, as in CPython).
* `json.loads` is embedded as the fuel-bounded recursive-descent parser
  `json_loads`; a raised `JSONDecodeError` is `none`.
* String methods `lower`/`upper`/`strip` and the `in` substring operator are
  `pyLower`/`pyUpper`/`pyStrip`/`strIn` (ASCII semantics, which is all the
  log wire format exercises).
* `collections.deque(maxlen = c)` appends are `dpush c`.
* `LogMonitor.analyze_log_entry` is `analyze_log_entry`, a function from an
  entry and the mutable monitor state to `Option MonitorStats`; `none` models
  a Python exception escaping the method (e.g. a string method invoked on a
  non-string field), which the source's tail loop would turn into loop exit.
* The tail loop of `LogMonitor.tail_log_file` is the step function
  `tailStep` over an explicit reader state; one loop iteration either reads
  a line, observes no new data, or raises (caught by the `except` that wraps
  the whole loop body and returns from the function).
* `CompactTester.insert_documents_batch` / `run_stress_test` are embedded
  with the remote call outcome supplied as an oracle per batch.
-/
import Mathlib

/-! ### Python string primitives -/

/-- ASCII lowercasing, the embedding of `str.lower()` on the log wire
format (which is ASCII). -/
def pyLower (s : String) : String := String.mk (s.data.map Char.toLower)

/-- ASCII uppercasing, the embedding of `str.upper()`. -/
def pyUpper (s : String) : String := String.mk (s.data.map Char.toUpper)

/-- Characters removed by Python `str.strip()` (ASCII whitespace). -/
def pyIsSpace (c : Char) : Bool :=
  c = ' ' || c = '\t' || c = '\n' || c = '\r' || c.toNat = 11 || c.toNat = 12

/-- The embedding of `str.strip()`. -/
def pyStrip (s : String) : String :=
  String.mk (((s.data.dropWhile pyIsSpace).reverse.dropWhile pyIsSpace).reverse)

/-- The embedding of the Python substring test `needle in hay` on strings. -/
def strIn (needle hay : String) : Bool :=
  (List.range (hay.data.length + 1)).any (fun i => needle.data.isPrefixOf (hay.data.drop i))

/-! ### JSON values and Python dicts -/

/-- A decoded JSON value, the result type of `json.loads`.  Numbers keep
their source lexeme: none of the verified code inspects numeric values. -/
inductive JValue where
  | null : JValue
  | bool (b : Bool) : JValue
  | num (lexeme : String) : JValue
  | str (s : String) : JValue
  | arr (elems : List JValue) : JValue
  | obj (members : List (String × JValue)) : JValue

/-- A Python dict with string keys, as produced by decoding a JSON object.
CPython keeps the value of the LAST duplicate key, so lookups scan from the
right. -/
abbrev JDict := List (String × JValue)

/-- Is the value a Python dict? -/
def JValue.isObj : JValue → Bool
  | .obj _ => true
  | _ => false

/-- The embedding of `entry.get(k, d)`. -/
def dictGetD (entry : JDict) (k : String) (d : JValue) : JValue :=
  match entry.reverse.find? (fun p => p.1 == k) with
  | some p => p.2
  | none => d

/-- The embedding of the Python key test `k in entry`. -/
def hasKey (entry : JDict) (k : String) : Bool := entry.any (fun p => p.1 == k)

/-- Viewing a field value as a `str`.  A present non-string value yields
`none`: every use site immediately applies a string method or the substring
`in` operator to the value, which raises in Python for the types appearing
in the log wire format. -/
def asStr : JValue → Option String
  | .str s => some s
  | _ => none

/-- `asStr (entry.get(k, ""))`: the string content of field `k`, defaulting
to `""` when the key is absent. -/
def fieldStr (entry : JDict) (k : String) : Option String :=
  asStr (dictGetD entry k (JValue.str ""))

/-! ### Bounded buffers: `collections.deque(maxlen = cap)` -/

/-- The last `n` elements of a list. -/
def lastN (n : Nat) (l : List α) : List α := l.drop (l.length - n)

/-- The embedding of `deque.append` for a deque constructed with
`maxlen = cap`: the new element goes to the right and, when the deque is
full, the oldest element falls off the left. -/
def dpush (cap : Nat) (buf : List α) (x : α) : List α := lastN cap (buf ++ [x])

/-- `maxlen` of `LogMonitor.compact_events` (`log_monitor.py` line 23). -/
def compactEventsMaxlen : Nat := 100

/-- `maxlen` of `LogMonitor.errors` (`log_monitor.py` line 24). -/
def errorsMaxlen : Nat := 50

/-- `maxlen` of `LogMonitor.get_collection_events` (`log_monitor.py` line 25). -/
def getCollectionEventsMaxlen : Nat := 100

/-! ### `json.loads`

A fuel-bounded recursive-descent parser for the JSON accepted by Python's
`json.loads` with default options: objects, arrays, strings (with escapes;
a `\uXXXX` high/low surrogate pair is combined into one code point),
numbers (kept as lexemes), `true`/`false`/`null` and the Python extensions
`NaN`/`Infinity`/`-Infinity` (also kept as numeric lexemes).  `none` models
a raised `json.JSONDecodeError`.  Each recursive call consumes at least one
character, so the fuel `length + 1` supplied by `json_loads` never runs
out. -/

/-- JSON inter-token whitespace (as in CPython's `json` module). -/
def jsonWs (c : Char) : Bool := c = ' ' || c = '\t' || c = '\n' || c = '\r'

/-- Skip JSON whitespace. -/
def skipWs (cs : List Char) : List Char := cs.dropWhile jsonWs

/-- Value of one hexadecimal digit. -/
def hexVal (c : Char) : Option Nat :=
  if '0' ≤ c ∧ c ≤ '9' then some (c.toNat - 48)
  else if 'a' ≤ c ∧ c ≤ 'f' then some (c.toNat - 87)
  else if 'A' ≤ c ∧ c ≤ 'F' then some (c.toNat - 55)
  else none

/-- Value of a four-digit hexadecimal escape. -/
def hex4 (a b c d : Char) : Option Nat := do
  let x ← hexVal a
  let y ← hexVal b
  let z ← hexVal c
  let w ← hexVal d
  return ((x * 16 + y) * 16 + z) * 16 + w

/-- Translate a single-character JSON escape. -/
def escChar (c : Char) : Option Char :=
  if c = '"' then some '"'
  else if c = '\\' then some '\\'
  else if c = '/' then some '/'
  else if c = 'b' then some (Char.ofNat 8)
  else if c = 'f' then some (Char.ofNat 12)
  else if c = 'n' then some '\n'
  else if c = 'r' then some '\r'
  else if c = 't' then some '\t'
  else none

/-- Parse the body of a JSON string (the opening quote already consumed),
returning the decoded characters and the remaining input.  Strict mode:
raw control characters are rejected. -/
def parseStringBody : Nat → List Char → Option (List Char × List Char)
  | 0, _ => none
  | _, [] => none
  | fuel + 1, c :: rest =>
    if c = '"' then some ([], rest)
    else if c = '\\' then
      match rest with
      | 'u' :: a :: b :: c1 :: d :: rest1 =>
        match hex4 a b c1 d with
        | none => none
        | some n =>
          if 0xD800 ≤ n ∧ n ≤ 0xDBFF then
            match rest1 with
            | '\\' :: 'u' :: a2 :: b2 :: c2 :: d2 :: rest2 =>
              match hex4 a2 b2 c2 d2 with
              | some m =>
                if 0xDC00 ≤ m ∧ m ≤ 0xDFFF then
                  (parseStringBody fuel rest2).map
                    (fun p => (Char.ofNat (0x10000 + (n - 0xD800) * 1024 + (m - 0xDC00)) :: p.1, p.2))
                else (parseStringBody fuel rest1).map (fun p => (Char.ofNat n :: p.1, p.2))
              | none => (parseStringBody fuel rest1).map (fun p => (Char.ofNat n :: p.1, p.2))
            | _ => (parseStringBody fuel rest1).map (fun p => (Char.ofNat n :: p.1, p.2))
          else (parseStringBody fuel rest1).map (fun p => (Char.ofNat n :: p.1, p.2))
      | e :: rest1 =>
        match escChar e with
        | some ec => (parseStringBody fuel rest1).map (fun p => (ec :: p.1, p.2))
        | none => none
      | [] => none
    else if c.toNat < 32 then none
    else (parseStringBody fuel rest).map (fun p => (c :: p.1, p.2))

/-- Split leading decimal digits. -/
def takeDigits (cs : List Char) : List Char × List Char :=
  (cs.takeWhile Char.isDigit, cs.dropWhile Char.isDigit)

/-- Parse the optional exponent part of a number, extending the lexeme. -/
def parseExp (lex : List Char) (cs : List Char) : List Char × List Char :=
  match cs with
  | 'e' :: rest =>
    (match rest with
     | '+' :: r => (match takeDigits r with
                    | ([], _) => (lex, cs)
                    | (ds, r') => (lex ++ 'e' :: '+' :: ds, r'))
     | '-' :: r => (match takeDigits r with
                    | ([], _) => (lex, cs)
                    | (ds, r') => (lex ++ 'e' :: '-' :: ds, r'))
     | r => (match takeDigits r with
             | ([], _) => (lex, cs)
             | (ds, r') => (lex ++ 'e' :: ds, r')))
  | 'E' :: rest =>
    (match rest with
     | '+' :: r => (match takeDigits r with
                    | ([], _) => (lex, cs)
                    | (ds, r') => (lex ++ 'E' :: '+' :: ds, r'))
     | '-' :: r => (match takeDigits r with
                    | ([], _) => (lex, cs)
                    | (ds, r') => (lex ++ 'E' :: '-' :: ds, r'))
     | r => (match takeDigits r with
             | ([], _) => (lex, cs)
             | (ds, r') => (lex ++ 'E' :: ds, r')))
  | _ => (lex, cs)

/-- Parse the optional fraction part of a number, then the exponent. -/
def parseFracExp (lex : List Char) (cs : List Char) : List Char × List Char :=
  match cs with
  | '.' :: rest =>
    (match takeDigits rest with
     | ([], _) => parseExp lex cs
     | (ds, r') => parseExp (lex ++ '.' :: ds) r')
  | _ => parseExp lex cs

/-- Parse a JSON number (CPython's regular expression
`(-?(?:0|[1-9]\d*))(\.\d+)?([eE][-+]?\d+)?`), keeping the lexeme. -/
def parseNumber (cs : List Char) : Option (JValue × List Char) :=
  let signed : List Char × List Char :=
    match cs with
    | '-' :: r => (['-'], r)
    | _ => ([], cs)
  match signed.2 with
  | '0' :: r =>
    let p := parseFracExp (signed.1 ++ ['0']) r
    some (JValue.num (String.mk p.1), p.2)
  | c :: r =>
    if c.isDigit then
      let p0 := takeDigits r
      let p := parseFracExp (signed.1 ++ c :: p0.1) p0.2
      some (JValue.num (String.mk p.1), p.2)
    else none
  | [] => none

/-- The parsing task of one recursive step: a value, the members of an
object (accumulated so far), or the elements of an array. -/
inductive PMode where
  | value : PMode
  | members (acc : List (String × JValue)) : PMode
  | elems (acc : List JValue) : PMode

/-- The recursive core of the parser, structurally recursive on the fuel.
In `value` mode it parses one JSON value starting at the head of the input;
in `members` mode it parses `"key": value` pairs followed by `,` or `}`;
in `elems` mode it parses array elements followed by `,` or `]`. -/
def parseCore : Nat → PMode → List Char → Option (JValue × List Char)
  | 0, _, _ => none
  | fuel + 1, PMode.value, cs =>
    match cs with
    | '"' :: rest =>
      (parseStringBody (rest.length + 1) rest).map (fun p => (JValue.str (String.mk p.1), p.2))
    | '{' :: rest =>
      (match skipWs rest with
       | '}' :: rest1 => some (JValue.obj [], rest1)
       | cs1 => parseCore fuel (PMode.members []) cs1)
    | '[' :: rest =>
      (match skipWs rest with
       | ']' :: rest1 => some (JValue.arr [], rest1)
       | cs1 => parseCore fuel (PMode.elems []) cs1)
    | _ =>
      if "true".data.isPrefixOf cs then some (JValue.bool true, cs.drop 4)
      else if "false".data.isPrefixOf cs then some (JValue.bool false, cs.drop 5)
      else if "null".data.isPrefixOf cs then some (JValue.null, cs.drop 4)
      else if "NaN".data.isPrefixOf cs then some (JValue.num "NaN", cs.drop 3)
      else if "Infinity".data.isPrefixOf cs then some (JValue.num "Infinity", cs.drop 8)
      else if "-Infinity".data.isPrefixOf cs then some (JValue.num "-Infinity", cs.drop 9)
      else parseNumber cs
  | fuel + 1, PMode.members acc, cs =>
    match cs with
    | '"' :: rest =>
      (match parseStringBody (rest.length + 1) rest with
       | none => none
       | some (key, rest1) =>
         match skipWs rest1 with
         | ':' :: rest2 =>
           (match parseCore fuel PMode.value (skipWs rest2) with
            | none => none
            | some (v, rest3) =>
              match skipWs rest3 with
              | ',' :: rest4 => parseCore fuel (PMode.members (acc ++ [(String.mk key, v)])) (skipWs rest4)
              | '}' :: rest4 => some (JValue.obj (acc ++ [(String.mk key, v)]), rest4)
              | _ => none)
         | _ => none)
    | _ => none
  | fuel + 1, PMode.elems acc, cs =>
    match parseCore fuel PMode.value cs with
    | none => none
    | some (v, rest) =>
      match skipWs rest with
      | ',' :: rest1 => parseCore fuel (PMode.elems (acc ++ [v])) (skipWs rest1)
      | ']' :: rest1 => some (JValue.arr (acc ++ [v]), rest1)
      | _ => none

/-- The embedding of `json.loads`: decode one JSON document, allowing
surrounding whitespace and nothing else. -/
def json_loads (s : String) : Option JValue :=
  let cs := skipWs s.data
  match parseCore (cs.length + 1) PMode.value cs with
  | some (v, rest) => if skipWs rest = [] then some v else none
  | none => none

/-- The embedding of `LogMonitor.parse_log_line` (`log_monitor.py` lines
27-33): `json.loads(line.strip())`, and on any decode error the fallback
dict `{"raw": line.strip()}`.  The bare `except:` catches every exception,
so the Python method is total on strings. -/
def parse_log_line (line : String) : JValue :=
  match json_loads (pyStrip line) with
  | some v => v
  | none => JValue.obj [("raw", JValue.str (pyStrip line))]

/-! ### `LogMonitor` state and `analyze_log_entry`

`self.stats` is a `defaultdict(int)`, embedded as an association list with
default `0`; `bump` is `self.stats[k] += 1`.  The three deques are plain
lists with `dpush` appends.  All `print` calls are side effects outside the
model. -/

/-- An element of `compact_events` or `get_collection_events`: the dict
`{"timestamp": ..., "level": ..., "message": ..., "details": entry}`. -/
structure EventRec where
  timestamp : JValue
  level : String
  message : String
  details : JDict

/-- An element of `LogMonitor.errors`: the dict
`{"timestamp": ..., "message": ..., "details": entry}`. -/
structure MErrorRec where
  timestamp : JValue
  message : String
  details : JDict

/-- The mutable state of a `LogMonitor` touched by `analyze_log_entry`. -/
structure MonitorStats where
  stats : List (String × Nat)
  compact_events : List EventRec
  errors : List MErrorRec
  get_collection_events : List EventRec

/-- The fresh state built by `LogMonitor.__init__`. -/
def MonitorStats.init : MonitorStats := ⟨[], [], [], []⟩

/-- Read a counter of the `defaultdict(int)`: `0` when absent. -/
def statGet : List (String × Nat) → String → Nat
  | [], _ => 0
  | (k', v) :: rest, k => if k' = k then v else statGet rest k

/-- `self.stats[k] += 1` on the `defaultdict(int)`. -/
def bump : List (String × Nat) → String → List (String × Nat)
  | [], k => [(k, 1)]
  | (k', v) :: rest, k => if k' = k then (k', v + 1) :: rest else (k', v) :: bump rest k

/-- The key of the per-level counter: `f"log_level_{level.lower()}"` where
`level` has already been uppercased (`log_monitor.py` line 45). -/
def levelKey (level : String) : String := "log_level_" ++ pyLower level

/-- Lines 47-69 of `log_monitor.py`: the compact-event block.  Note the
`elif` chain: at most one of the three specific counters is bumped, in the
priority order `starting`, `completed`, `trigger`. -/
def compactStep (ts : JValue) (level msg : String) (entry : JDict) (m : MonitorStats) :
    MonitorStats :=
  if strIn "compact" (pyLower msg) then
    let m1 : MonitorStats :=
      { m with
        compact_events := dpush compactEventsMaxlen m.compact_events ⟨ts, level, msg, entry⟩,
        stats := bump m.stats "compact_events" }
    if strIn "starting" (pyLower msg) then
      { m1 with stats := bump m1.stats "compact_started" }
    else if strIn "completed" (pyLower msg) then
      { m1 with stats := bump m1.stats "compact_completed" }
    else if strIn "trigger" (pyLower msg) then
      { m1 with stats := bump m1.stats "compact_triggered" }
    else m1
  else m

/-- Lines 71-87 of `log_monitor.py`: the collection-get block.  The `or` is
short-circuiting, so `entry.get("caller", "")` is only touched when the
message does not contain `"get"`; a present non-string `caller` makes the
Python `in` operator misbehave for wire-format types, modelled as `none`. -/
def collectionStep (ts : JValue) (level msg : String) (entry : JDict) (m : MonitorStats) :
    Option MonitorStats :=
  if strIn "collection" (pyLower msg) then do
    let isGet ←
      if strIn "get" (pyLower msg) then some true
      else (fieldStr entry "caller").map (fun cal => strIn "GetCollection" cal)
    if isGet then
      let m1 : MonitorStats :=
        { m with
          get_collection_events :=
            dpush getCollectionEventsMaxlen m.get_collection_events ⟨ts, level, msg, entry⟩ }
      if level == "ERROR" then
        some { m1 with stats := bump m1.stats "get_collection_errors" }
      else
        some { m1 with stats := bump m1.stats "get_collection_success" }
    else some m
  else some m

/-- Lines 89-95 of `log_monitor.py`: the error block. -/
def errorStep (ts : JValue) (level msg : String) (entry : JDict) (m : MonitorStats) :
    MonitorStats :=
  if level == "ERROR" then
    { m with
      errors := dpush errorsMaxlen m.errors ⟨ts, msg, entry⟩,
      stats := bump m.stats "total_errors" }
  else m

/-- Lines 97-112 of `log_monitor.py`: the LSM block (the inner branches
only print). -/
def lsmStep (msg : String) (m : MonitorStats) : MonitorStats :=
  if strIn "lsm" (pyLower msg) || strIn "sstable" (pyLower msg)
      || strIn "memtable" (pyLower msg) then
    { m with stats := bump m.stats "lsm_operations" }
  else m

/-- The embedding of `LogMonitor.analyze_log_entry` (`log_monitor.py` lines
35-112).  `none` models an exception escaping the method (a string method
applied to a non-string field value), which the caller's `except` turns
into tail-loop exit. -/
def analyze_log_entry (entry : JDict) (m : MonitorStats) : Option MonitorStats :=
  if hasKey entry "raw" then some m
  else do
    let level0 ← fieldStr entry "level"
    let level := pyUpper level0
    let msg ← fieldStr entry "msg"
    let ts := dictGetD entry "ts" (JValue.str "")
    let m1 : MonitorStats := { m with stats := bump m.stats (levelKey level) }
    let m2 := compactStep ts level msg entry m1
    let m3 ← collectionStep ts level msg entry m2
    let m4 := errorStep ts level msg entry m3
    some (lsmStep msg m4)

/-! ### The tail loop of `LogMonitor.tail_log_file`

Lines 130-146 of `log_monitor.py`: after the file appears, the reader seeks
to the current end (`f.seek(0, 2)`) and loops.  One loop iteration either
returns a complete line (parse and analyze it), returns no data (sleep
100 ms), or raises; the `try`/`except` wraps the WHOLE loop, so the handler
prints the error and falls out of the function, ending tailing.  The file
is modelled at line granularity: a list of complete lines to which a
concurrent writer appends. -/

/-- One cycle of the tailing loop, from the loop's point of view. -/
inductive TailCycle where
  | append (ls : List String) : TailCycle
  | read : TailCycle
  | readFail : TailCycle

/-- The reader-visible state: the file contents, the reader offset (in
lines), whether the loop is still running, and the lines handed to
`parse_log_line`/`analyze_log_entry` so far, oldest first. -/
structure TailerState where
  file : List String
  pos : Nat
  alive : Bool
  emitted : List String

/-- `f.seek(0, 2)`: start reading at the current end of the file. -/
def openAtEnd (initial : List String) : TailerState :=
  ⟨initial, initial.length, true, []⟩

/-- One cycle: a writer append (which happens whether or not the loop still
runs), a `readline` that returns the next line or no data, or an exception
inside the loop body — the `except` handler prints and returns from
`tail_log_file`, so the loop is no longer alive afterwards. -/
def tailStep (s : TailerState) (c : TailCycle) : TailerState :=
  match c with
  | .append ls => { s with file := s.file ++ ls }
  | .read =>
    if s.alive then
      match s.file[s.pos]? with
      | some l => { s with pos := s.pos + 1, emitted := s.emitted ++ [l] }
      | none => s
    else s
  | .readFail => if s.alive then { s with alive := false } else s

/-- Run the tail loop from a fresh open over a sequence of cycles. -/
def tailRun (initial : List String) (cs : List TailCycle) : TailerState :=
  cs.foldl tailStep (openAtEnd initial)

/-- All lines appended by the writer during a sequence of cycles. -/
def appendedOf : List TailCycle → List String
  | [] => []
  | TailCycle.append ls :: cs => ls ++ appendedOf cs
  | _ :: cs => appendedOf cs

/-! ### `CompactTester` (`compact_test.py`)

The remote service is out of scope; each call's outcome (and the exception
text on failure) is an oracle input.  `time.time()` is abstracted to `Nat`
ticks. -/

/-- An element of `CompactTester.errors`:
`{"timestamp": ..., "type": ..., "error": ...}`. -/
structure TErrorRec where
  timestamp : Nat
  type : String
  error : String

/-- The mutable `CompactTester` state: the four counters of `self.stats`
and the unbounded `self.errors` list. -/
structure TesterState where
  documents_inserted : Nat
  get_collection_success : Nat
  get_collection_failures : Nat
  compact_triggers : Nat
  errors : List TErrorRec

/-- The state built by `CompactTester.__init__` (lines 31-37). -/
def TesterState.init : TesterState := ⟨0, 0, 0, 0, []⟩

/-- Decimal digits of a natural number, most significant first;
structurally recursive on a fuel bound (`n / 10 < n` for `n ≥ 10`, so fuel
`n + 1` never runs out). -/
def decDigitsAux : Nat → Nat → List Char
  | 0, _ => []
  | fuel + 1, n =>
    if n < 10 then [Nat.digitChar n]
    else decDigitsAux fuel (n / 10) ++ [Nat.digitChar (n % 10)]

/-- Decimal digits of a natural number, most significant first. -/
def decDigits (n : Nat) : List Char := decDigitsAux (n + 1) n

/-- The embedding of the format specifier `{n:06d}`: the decimal digits,
zero-padded on the left to at least six characters. -/
def pyFormat06 (n : Nat) : String :=
  String.mk (List.replicate (6 - (decDigits n).length) '0' ++ decDigits n)

/-- The document id `f"doc_{n:06d}"` (`compact_test.py` line 118, with
`n = self.stats['documents_inserted'] + i + 1`). -/
def docId (n : Nat) : String := "doc_" ++ pyFormat06 n

/-- The ids of one generated batch (`compact_test.py` lines 116-120):
`doc_<inserted+i+1>` zero-padded, for `i` in `0 .. batchSize-1`. -/
def batchIds (inserted batchSize : Nat) : List String :=
  (List.range batchSize).map (fun i => docId (inserted + i + 1))

/-- The embedding of `CompactTester.insert_documents_batch` (lines
114-139): build the batch (ids `batchIds s.documents_inserted batchSize`),
issue the remote call with outcome `callOk`; on success add `batchSize` to
`documents_inserted` and return `True`; on failure append one
`insert_failure` error record and return `False`. -/
def insert_documents_batch (s : TesterState) (batchSize : Nat) (now : Nat)
    (callOk : Bool) (errMsg : String) : Bool × TesterState :=
  if callOk then
    (true, { s with documents_inserted := s.documents_inserted + batchSize })
  else
    (false, { s with errors := s.errors ++ [⟨now, "insert_failure", errMsg⟩] })

/-- The oracle inputs of one iteration of the stress loop: the clock and
stop flag sampled at the loop guard, and the outcomes of the two remote
calls the iteration can make. -/
structure BatchEnv where
  now : Nat
  running : Bool
  insertOk : Bool
  insertErr : String
  searchOk : Bool
  searchErr : String

/-- The guard of the stress loop (line 188):
`while time.time() < end_time and self.is_running`.  It reads only the
clock and the stop flag — no accumulated statistic occurs in it. -/
def stressGuard (endTime : Nat) (e : BatchEnv) : Bool :=
  decide (e.now < endTime) && e.running

/-- The body of one stress-loop iteration (lines 189-225): insert a batch;
if the batch succeeded, run the search probe and record a
`search_failure` error record if it fails.  Sleeps and `print_stats` do
not change the modelled state. -/
def stressBody (batchSize : Nat) (s : TesterState) (e : BatchEnv) : TesterState :=
  let r := insert_documents_batch s batchSize e.now e.insertOk e.insertErr
  if r.1 then
    if e.searchOk then r.2
    else { r.2 with errors := r.2.errors ++ [⟨e.now, "search_failure", e.searchErr⟩] }
  else r.2

/-- The embedding of the loop of `CompactTester.run_stress_test` (lines
186-228): iterate the body while the guard holds, stopping at the first
iteration whose guard fails. -/
def run_stress_test (batchSize endTime : Nat) : TesterState → List BatchEnv → TesterState
  | s, [] => s
  | s, e :: es =>
    if stressGuard endTime e then run_stress_test batchSize endTime (stressBody batchSize s e) es
    else s

/-- The id lists of the successive batches generated by a run, given the
success/failure of each insert call: the counter argument of `batchIds`
advances by `batchSize` exactly on success (lines 116-127). -/
def runBatches (batchSize : Nat) : Nat → List Bool → List (List String)
  | _, [] => []
  | c, ok :: rest =>
    batchIds c batchSize :: runBatches batchSize (if ok then c + batchSize else c) rest

/-! ### Success-rate reporting -/

/-- The embedding of `LogMonitor.print_stats` lines 173-177: the
collection-get success rate is printed only when `success + errors > 0`,
and then equals `success / (success + errors) * 100`; `none` means no rate
line is printed. -/
def monitorSuccessRate (success errors : Nat) : Option ℚ :=
  if 0 < success + errors then
    some ((success : ℚ) / ((success : ℚ) + (errors : ℚ)) * 100)
  else none

/-- The embedding of `CompactTester.print_stats` lines 242-254: same
guard, over `get_collection_success` and `get_collection_failures`. -/
def testerSuccessRate (success failures : Nat) : Option ℚ :=
  if 0 < success + failures then
    some ((success : ℚ) / ((success : ℚ) + (failures : ℚ)) * 100)
  else none

/-! ### Lemmas about counters -/

theorem statGet_bump_self (kvs : List (String × Nat)) (k : String) :
    statGet (bump kvs k) k = statGet kvs k + 1 := by
  induction kvs with
  | nil => simp [bump, statGet]
  | cons p rest ih =>
    obtain ⟨k', v⟩ := p
    by_cases h : k' = k
    · subst h
      simp [bump, statGet]
    · simp [bump, statGet, h, ih]

theorem statGet_bump_ne (kvs : List (String × Nat)) {k k' : String} (h : k' ≠ k) :
    statGet (bump kvs k) k' = statGet kvs k' := by
  induction kvs with
  | nil => simp [bump, statGet, Ne.symm h]
  | cons p rest ih =>
    obtain ⟨k'', v⟩ := p
    by_cases h2 : k'' = k
    · subst h2
      simp [bump, statGet, h, Ne.symm h]
    · by_cases h3 : k'' = k'
      · subst h3
        simp [bump, statGet, h2]
      · simp [bump, statGet, h2, h3, ih]

/-- Every per-level counter key starts with the ten characters
`log_level_`, so it is distinct from every other counter key used by
`analyze_log_entry`. -/
theorem levelKey_ne (level : String) {k : String}
    (h : k.data.take 10 ≠ "log_level_".data) : levelKey level ≠ k := by
  intro he
  apply h
  rw [← he]
  show (("log_level_" : String) ++ pyLower level).data.take 10 = _
  rw [String.data_append]
  exact List.take_left' rfl

/-! ### Lemmas about `dpush` -/

theorem lastN_of_le {l : List α} {n : Nat} (h : l.length ≤ n) : lastN n l = l := by
  simp [lastN, Nat.sub_eq_zero_of_le h]

theorem length_lastN (n : Nat) (l : List α) : (lastN n l).length = l.length - (l.length - n) := by
  simp [lastN]

theorem length_dpush_le (cap : Nat) (buf : List α) (x : α) :
    (dpush cap buf x).length ≤ cap := by
  simp only [dpush, length_lastN, List.length_append, List.length_cons, List.length_nil]
  omega

theorem lastN_lastN_append {cap : Nat} (l xs : List α) (h : l.length ≤ cap + 1) :
    lastN cap (lastN cap l ++ xs) = lastN cap (l ++ xs) := by
  by_cases h1 : l.length ≤ cap
  · rw [lastN_of_le h1]
  · have h2 : l.length = cap + 1 := by omega
    match l, h2 with
    | a :: t, h2 =>
      have ht : t.length = cap := by simpa using h2
      show lastN cap (lastN cap (a :: t) ++ xs) = lastN cap (a :: (t ++ xs))
      have he : lastN cap (a :: t) = t := by
        simp [lastN, List.length_cons, ht]
      rw [he]
      simp only [lastN, List.length_append, List.length_cons, ht]
      have e1 : cap + xs.length - cap = xs.length := by omega
      have e2 : cap + xs.length + 1 - cap = xs.length + 1 := by omega
      rw [e1, e2, List.drop_succ_cons]

theorem foldl_dpush {cap : Nat} (xs : List α) (b : List α) (hb : b.length ≤ cap) :
    xs.foldl (dpush cap) b = lastN cap (b ++ xs) := by
  induction xs generalizing b with
  | nil => simpa using (lastN_of_le hb).symm
  | cons x xs ih =>
    show xs.foldl (dpush cap) (dpush cap b x) = _
    rw [ih (dpush cap b x) (length_dpush_le cap b x)]
    show lastN cap (lastN cap (b ++ [x]) ++ xs) = _
    rw [lastN_lastN_append (b ++ [x]) xs (by simp; exact hb)]
    simp

theorem foldl_dpush_full {cap : Nat} (xs : List α) (b : List α) (hb : b.length ≤ cap)
    (hx : cap ≤ xs.length) : xs.foldl (dpush cap) b = lastN cap xs := by
  rw [foldl_dpush xs b hb]
  simp only [lastN, List.length_append]
  have e : b.length + xs.length - cap = b.length + (xs.length - cap) := by omega
  rw [e, List.drop_append]

/-! ### Lemmas about document ids -/

/-- The numeric value of a list of decimal digit characters. -/
def digitsVal (ds : List Char) : Nat :=
  ds.foldl (fun a c => 10 * a + (c.toNat - 48)) 0

theorem digitsVal_append (ds : List Char) (c : Char) :
    digitsVal (ds ++ [c]) = 10 * digitsVal ds + (c.toNat - 48) := by
  simp [digitsVal, List.foldl_append]

theorem digitChar_toNat_sub {d : Nat} (h : d < 10) : (Nat.digitChar d).toNat - 48 = d := by
  interval_cases d <;> rfl

theorem digitsVal_decDigitsAux : ∀ (fuel n : Nat), n < fuel →
    digitsVal (decDigitsAux fuel n) = n := by
  intro fuel
  induction fuel with
  | zero => omega
  | succ fuel ih =>
    intro n hn
    by_cases h : n < 10
    · simp [decDigitsAux, h, digitsVal, digitChar_toNat_sub h]
    · have hd : n / 10 < fuel := by
        have := Nat.div_lt_self (by omega : 0 < n) (by omega : 1 < 10)
        omega
      simp only [decDigitsAux, h, if_false]
      rw [digitsVal_append, ih (n / 10) hd, digitChar_toNat_sub (Nat.mod_lt n (by omega))]
      omega

theorem digitsVal_decDigits (n : Nat) : digitsVal (decDigits n) = n :=
  digitsVal_decDigitsAux (n + 1) n (Nat.lt_succ_self n)

theorem digitsVal_replicate_zero (k : Nat) (ds : List Char) :
    digitsVal (List.replicate k '0' ++ ds) = digitsVal ds := by
  induction k with
  | zero => simp
  | succ k ih => simpa [digitsVal, List.replicate_succ] using ih

theorem digitsVal_pyFormat06 (n : Nat) : digitsVal (pyFormat06 n).data = n := by
  show digitsVal (List.replicate _ '0' ++ decDigits n) = n
  rw [digitsVal_replicate_zero, digitsVal_decDigits]

theorem docId_injective : Function.Injective docId := by
  intro n m h
  have hd : ("doc_" : String).data ++ (pyFormat06 n).data
      = ("doc_" : String).data ++ (pyFormat06 m).data := by
    have := congrArg String.data h
    simpa [docId, String.data_append] using this
  have h2 : (pyFormat06 n).data = (pyFormat06 m).data := by
    exact List.append_cancel_left hd
  have h3 := congrArg digitsVal h2
  rwa [digitsVal_pyFormat06, digitsVal_pyFormat06] at h3

/-! ### Lemmas about the tail loop -/

/-- Invariant of the tail loop relative to the length of the initial file
content: the reader never points before the initial end nor past the
current end, and the emitted lines are exactly the segment of the file
between the initial end and the reader position. -/
def TailInv (initLen : Nat) (s : TailerState) : Prop :=
  initLen ≤ s.pos ∧ s.pos ≤ s.file.length ∧
  s.emitted = (s.file.drop initLen).take (s.pos - initLen)

theorem tailStep_inv {n : Nat} {s : TailerState} (h : TailInv n s) (c : TailCycle) :
    TailInv n (tailStep s c) := by
  obtain ⟨h1, h2, h3⟩ := h
  cases c with
  | append ls =>
    refine ⟨h1, ?_, ?_⟩
    · simp only [tailStep, List.length_append]
      omega
    · simp only [tailStep]
      rw [h3, List.drop_append_of_le_length (by omega : n ≤ s.file.length),
        List.take_append_of_le_length (by simp [List.length_drop]; omega)]
  | read =>
    by_cases ha : s.alive = true
    · cases hl : s.file[s.pos]? with
      | none => simpa [tailStep, ha, hl] using ⟨h1, h2, h3⟩
      | some l =>
        have hp : s.pos < s.file.length := by
          by_contra hc
          rw [List.getElem?_eq_none (by omega)] at hl
          exact Option.noConfusion hl
        refine ⟨?_, ?_, ?_⟩
        · simp only [tailStep, ha, if_true, hl]
          omega
        · simp only [tailStep, ha, if_true, hl]
          omega
        · simp only [tailStep, ha, if_true, hl]
          show s.emitted ++ [l] = (s.file.drop n).take (s.pos + 1 - n)
          have hget : (s.file.drop n)[s.pos - n]? = some l := by
            rw [List.getElem?_drop]
            have hidx : n + (s.pos - n) = s.pos := by omega
            rw [hidx]
            exact hl
          obtain ⟨hlt2, hg⟩ := List.getElem?_eq_some.mp hget
          have e : s.pos + 1 - n = (s.pos - n) + 1 := by omega
          rw [h3, e, ← List.take_concat_get' (s.file.drop n) (s.pos - n) hlt2, hg]
    · simpa [tailStep, ha] using ⟨h1, h2, h3⟩
  | readFail =>
    by_cases ha : s.alive = true <;> simpa [tailStep, ha] using ⟨h1, h2, h3⟩

theorem tail_foldl_inv {n : Nat} (cs : List TailCycle) :
    ∀ (s : TailerState), TailInv n s → TailInv n (cs.foldl tailStep s) := by
  induction cs with
  | nil => intro s h; exact h
  | cons c cs ih => intro s h; exact ih (tailStep s c) (tailStep_inv h c)

theorem tail_foldl_file (cs : List TailCycle) :
    ∀ (s : TailerState), (cs.foldl tailStep s).file = s.file ++ appendedOf cs := by
  induction cs with
  | nil => intro s; simp [appendedOf]
  | cons c cs ih =>
    intro s
    cases c with
    | append ls => simp [List.foldl_cons, ih, tailStep, appendedOf]
    | read =>
      rw [List.foldl_cons, ih]
      have hf : (tailStep s TailCycle.read).file = s.file := by
        by_cases ha : s.alive = true
        · cases hl : s.file[s.pos]? <;> simp [tailStep, ha, hl]
        · simp [tailStep, ha]
      rw [hf]
      rfl
    | readFail =>
      rw [List.foldl_cons, ih]
      have hf : (tailStep s TailCycle.readFail).file = s.file := by
        by_cases ha : s.alive = true <;> simp [tailStep, ha]
      rw [hf]
      rfl

theorem tail_foldl_alive (cs : List TailCycle) (hnf : TailCycle.readFail ∉ cs) :
    ∀ (s : TailerState), (cs.foldl tailStep s).alive = s.alive := by
  induction cs with
  | nil => intro s; rfl
  | cons c cs ih =>
    intro s
    have hc : c ≠ TailCycle.readFail := fun h => hnf (h ▸ List.mem_cons_self c cs)
    have hcs : TailCycle.readFail ∉ cs := fun h => hnf (List.mem_cons_of_mem c h)
    rw [List.foldl_cons, ih hcs]
    cases c with
    | append ls => rfl
    | read =>
      by_cases ha : s.alive = true
      · cases hl : s.file[s.pos]? <;> simp [tailStep, ha, hl]
      · simp [tailStep, ha]
    | readFail => exact absurd rfl hc

/-- Once the loop is no longer alive, no later cycle emits anything. -/
theorem tail_dead_frame (cs : List TailCycle) :
    ∀ (s : TailerState), s.alive = false →
      (cs.foldl tailStep s).emitted = s.emitted ∧ (cs.foldl tailStep s).alive = false := by
  induction cs with
  | nil => intro s h; exact ⟨rfl, h⟩
  | cons c cs ih =>
    intro s h
    have hstep : (tailStep s c).emitted = s.emitted ∧ (tailStep s c).alive = false := by
      cases c <;> simp [tailStep, h]
    rw [List.foldl_cons]
    obtain ⟨he, ha⟩ := ih (tailStep s c) hstep.2
    exact ⟨he.trans hstep.1, ha⟩

/-- Enough read cycles bring the reader position to the end of the file. -/
theorem tail_drain : ∀ (k : Nat) (s : TailerState), s.alive = true →
    s.file.length ≤ s.pos + k → s.pos ≤ s.file.length →
    ((List.replicate k TailCycle.read).foldl tailStep s).file = s.file ∧
    ((List.replicate k TailCycle.read).foldl tailStep s).pos = s.file.length := by
  intro k
  induction k with
  | zero =>
    intro s _ h1 h2
    simp only [List.replicate_zero, List.foldl_nil]
    exact ⟨trivial, by omega⟩
  | succ k ih =>
    intro s ha h1 h2
    rw [List.replicate_succ, List.foldl_cons]
    by_cases hp : s.pos < s.file.length
    · have hl : s.file[s.pos]? = some s.file[s.pos] := List.getElem?_eq_some.mpr ⟨hp, rfl⟩
      have hstep : tailStep s TailCycle.read =
          { s with pos := s.pos + 1, emitted := s.emitted ++ [s.file[s.pos]] } := by
        simp [tailStep, ha, hl]
      rw [hstep]
      exact ih _ ha (by simp; omega) (by simp; omega)
    · have hstep : tailStep s TailCycle.read = s := by
        simp [tailStep, ha, List.getElem?_eq_none (by omega : s.file.length ≤ s.pos)]
      rw [hstep]
      exact ih s ha (by omega) h2

/-! ### Lemmas about the stress loop -/

theorem stressBody_insertFail (B : Nat) (s : TesterState) (e : BatchEnv)
    (h : e.insertOk = false) :
    stressBody B s e = { s with errors := s.errors ++ [⟨e.now, "insert_failure", e.insertErr⟩] } := by
  simp [stressBody, insert_documents_batch, h]

theorem stressBody_insertOk (B : Nat) (s : TesterState) (e : BatchEnv)
    (h : e.insertOk = true) :
    stressBody B s e =
      { s with
        documents_inserted := s.documents_inserted + B,
        errors := s.errors ++
          (if e.searchOk then [] else [⟨e.now, "search_failure", e.searchErr⟩]) } := by
  cases hs : e.searchOk <;> simp [stressBody, insert_documents_batch, h, hs]

theorem run_stress_all (B endT : Nat) (es : List BatchEnv) :
    ∀ s, (∀ e ∈ es, stressGuard endT e = true) →
      run_stress_test B endT s es = es.foldl (stressBody B) s := by
  induction es with
  | nil => intro s _; rfl
  | cons e es ih =>
    intro s hg
    rw [List.foldl_cons]
    show (if stressGuard endT e = true then _ else _) = _
    rw [if_pos (hg e (List.mem_cons_self e es))]
    exact ih _ (fun x hx => hg x (List.mem_cons_of_mem e hx))

theorem run_stress_stops (B endT : Nat) (es₁ : List BatchEnv) (e : BatchEnv)
    (es₂ : List BatchEnv) (hg : ∀ x ∈ es₁, stressGuard endT x = true)
    (he : stressGuard endT e = false) :
    ∀ s, run_stress_test B endT s (es₁ ++ e :: es₂) = es₁.foldl (stressBody B) s := by
  induction es₁ with
  | nil =>
    intro s
    show (if stressGuard endT e = true then _ else _) = _
    rw [he]
    simp
  | cons x es₁ ih =>
    intro s
    show (if stressGuard endT x = true then _ else _) = _
    rw [if_pos (hg x (List.mem_cons_self x es₁))]
    rw [List.foldl_cons]
    exact ih (fun y hy => hg y (List.mem_cons_of_mem x hy)) _

theorem stress_foldl_inserted (B : Nat) (es : List BatchEnv) :
    ∀ s, (es.foldl (stressBody B) s).documents_inserted
      = s.documents_inserted + B * es.countP (fun e => e.insertOk) := by
  induction es with
  | nil => intro s; simp
  | cons e es ih =>
    intro s
    rw [List.foldl_cons, ih]
    cases hi : e.insertOk with
    | false =>
      rw [stressBody_insertFail B s e hi]
      simp [List.countP_cons, hi]
    | true =>
      rw [stressBody_insertOk B s e hi]
      simp only [List.countP_cons, hi, if_true]
      show s.documents_inserted + B + B * es.countP (fun e => e.insertOk) = _
      rw [Nat.mul_add]
      omega

theorem stress_foldl_insert_failures (B : Nat) (es : List BatchEnv) :
    ∀ s, ((es.foldl (stressBody B) s).errors).filter (fun r => r.type == "insert_failure")
      = s.errors.filter (fun r => r.type == "insert_failure")
        ++ (es.filter (fun e => !e.insertOk)).map
            (fun e => TErrorRec.mk e.now "insert_failure" e.insertErr) := by
  induction es with
  | nil => intro s; simp
  | cons e es ih =>
    intro s
    rw [List.foldl_cons, ih]
    cases hi : e.insertOk with
    | false =>
      rw [stressBody_insertFail B s e hi]
      simp [List.filter_append, List.filter_cons, hi]
    | true =>
      rw [stressBody_insertOk B s e hi]
      cases hs : e.searchOk with
      | true => simp [List.filter_cons, hi, hs]
      | false =>
        simp only [hs, if_false]
        simp [List.filter_append, List.filter_cons, hi]

/-! ### Lemmas about batch-id generation -/

theorem runBatches_false_head (B c : Nat) (oks : List Bool) :
    runBatches B c (false :: oks) = batchIds c B :: runBatches B c oks := by
  simp [runBatches]

theorem runBatches_all_true (B : Nat) (oks : List Bool) :
    ∀ c, (∀ o ∈ oks, o = true) →
      (runBatches B c oks).flatten
        = (List.range (oks.length * B)).map (fun i => docId (c + i + 1)) := by
  induction oks with
  | nil => intro c _; simp [runBatches]
  | cons o rest ih =>
    intro c h
    have ho : o = true := h o (List.mem_cons_self o rest)
    subst ho
    show (batchIds c B :: runBatches B (if true then c + B else c) rest).flatten = _
    rw [if_pos rfl]
    rw [List.flatten_cons, ih (c + B) (fun x hx => h x (List.mem_cons_of_mem _ hx))]
    rw [List.length_cons, Nat.succ_mul, Nat.add_comm (rest.length * B) B, List.range_add,
      List.map_append, List.map_map]
    congr 1
    apply List.map_congr_left
    intro a _
    show docId (c + B + a + 1) = docId (c + (B + a) + 1)
    congr 1
    omega

theorem runBatches_nodup (B : Nat) (oks : List Bool) (c : Nat) (h : ∀ o ∈ oks, o = true) :
    ((runBatches B c oks).flatten).Nodup := by
  rw [runBatches_all_true B oks c h]
  refine List.Nodup.map_on ?_ (List.nodup_range _)
  intro x _ y _ hxy
  have := docId_injective hxy
  omega

theorem runBatches_append (B : Nat) (os₁ : List Bool) :
    ∀ c os₂, ∃ c', runBatches B c (os₁ ++ os₂) = runBatches B c os₁ ++ runBatches B c' os₂ := by
  induction os₁ with
  | nil => intro c os₂; exact ⟨c, rfl⟩
  | cons o rest ih =>
    intro c os₂
    obtain ⟨c', hc⟩ := ih (if o then c + B else c) os₂
    refine ⟨c', ?_⟩
    show batchIds c B :: runBatches B (if o then c + B else c) (rest ++ os₂) = _
    rw [hc]
    rfl

theorem runBatches_dup (B : Nat) (hB : 0 < B) (c : Nat) (os₁ : List Bool) (o : Bool)
    (os₂ : List Bool) :
    ¬ ((runBatches B c (os₁ ++ false :: o :: os₂)).flatten).Nodup := by
  obtain ⟨c', he⟩ := runBatches_append B os₁ c (false :: o :: os₂)
  rw [he]
  intro hnd
  have h2 : runBatches B c' (false :: o :: os₂)
      = batchIds c' B :: batchIds c' B :: runBatches B (if o then c' + B else c') os₂ := by
    simp [runBatches]
  have hx : docId (c' + 1) ∈ batchIds c' B :=
    List.mem_map.mpr ⟨0, List.mem_range.mpr hB, rfl⟩
  have hcount : 2 ≤ ((runBatches B c os₁ ++ runBatches B c' (false :: o :: os₂)).flatten).count
      (docId (c' + 1)) := by
    rw [h2, List.flatten_append, List.flatten_cons, List.flatten_cons, List.count_append,
      List.count_append, List.count_append]
    have h1 : 0 < (batchIds c' B).count (docId (c' + 1)) := List.count_pos_iff.mpr hx
    omega
  have := List.nodup_iff_count_le_one.mp hnd (docId (c' + 1))
  omega

/-! ### Effect of each block of `analyze_log_entry` on the counters -/

theorem statGet_bump2_ne (kvs : List (String × Nat)) {k a b : String}
    (ha : k ≠ a) (hb : k ≠ b) : statGet (bump (bump kvs a) b) k = statGet kvs k := by
  rw [statGet_bump_ne _ hb, statGet_bump_ne _ ha]

theorem compactStep_spec (ts : JValue) (level msg : String) (entry : JDict) (m : MonitorStats) :
    (∀ k, k ≠ "compact_events" → k ≠ "compact_started" → k ≠ "compact_completed" →
        k ≠ "compact_triggered" →
        statGet (compactStep ts level msg entry m).stats k = statGet m.stats k) ∧
    (compactStep ts level msg entry m).errors = m.errors ∧
    (compactStep ts level msg entry m).get_collection_events = m.get_collection_events ∧
    statGet (compactStep ts level msg entry m).stats "compact_events"
      = statGet m.stats "compact_events"
        + (if strIn "compact" (pyLower msg) then 1 else 0) ∧
    statGet (compactStep ts level msg entry m).stats "compact_started"
      = statGet m.stats "compact_started"
        + (if strIn "compact" (pyLower msg) && strIn "starting" (pyLower msg) then 1 else 0) ∧
    statGet (compactStep ts level msg entry m).stats "compact_completed"
      = statGet m.stats "compact_completed"
        + (if strIn "compact" (pyLower msg) && !strIn "starting" (pyLower msg)
            && strIn "completed" (pyLower msg) then 1 else 0) ∧
    statGet (compactStep ts level msg entry m).stats "compact_triggered"
      = statGet m.stats "compact_triggered"
        + (if strIn "compact" (pyLower msg) && !strIn "starting" (pyLower msg)
            && !strIn "completed" (pyLower msg) && strIn "trigger" (pyLower msg)
           then 1 else 0) := by
  by_cases h0 : strIn "compact" (pyLower msg) = true
  · by_cases h1 : strIn "starting" (pyLower msg) = true
    · have hs : compactStep ts level msg entry m =
          { m with
            compact_events := dpush compactEventsMaxlen m.compact_events ⟨ts, level, msg, entry⟩,
            stats := bump (bump m.stats "compact_events") "compact_started" } := by
        simp [compactStep, h0, h1]
      rw [hs]
      refine ⟨fun k hk1 hk2 _ _ => statGet_bump2_ne _ hk1 hk2, rfl, rfl, ?_, ?_, ?_, ?_⟩
      · rw [statGet_bump_ne _ (by simp : ("compact_events" : String) ≠ "compact_started"),
          statGet_bump_self]
        simp [h0]
      · rw [statGet_bump_self,
          statGet_bump_ne _ (by simp : ("compact_started" : String) ≠ "compact_events")]
        simp [h0, h1]
      · rw [statGet_bump2_ne _ (by simp) (by simp)]
        simp [h1]
      · rw [statGet_bump2_ne _ (by simp) (by simp)]
        simp [h1]
    · by_cases h2 : strIn "completed" (pyLower msg) = true
      · have hs : compactStep ts level msg entry m =
            { m with
              compact_events := dpush compactEventsMaxlen m.compact_events ⟨ts, level, msg, entry⟩,
              stats := bump (bump m.stats "compact_events") "compact_completed" } := by
          simp [compactStep, h0, h1, h2]
        rw [hs]
        refine ⟨fun k hk1 _ hk3 _ => statGet_bump2_ne _ hk1 hk3, rfl, rfl, ?_, ?_, ?_, ?_⟩
        · rw [statGet_bump_ne _ (by simp : ("compact_events" : String) ≠ "compact_completed"),
            statGet_bump_self]
          simp [h0]
        · rw [statGet_bump2_ne _ (by simp) (by simp)]
          simp [h1]
        · rw [statGet_bump_self,
            statGet_bump_ne _ (by simp : ("compact_completed" : String) ≠ "compact_events")]
          simp [h0, h1, h2]
        · rw [statGet_bump2_ne _ (by simp) (by simp)]
          simp [h2]
      · by_cases h3 : strIn "trigger" (pyLower msg) = true
        · have hs : compactStep ts level msg entry m =
              { m with
                compact_events := dpush compactEventsMaxlen m.compact_events ⟨ts, level, msg, entry⟩,
                stats := bump (bump m.stats "compact_events") "compact_triggered" } := by
            simp [compactStep, h0, h1, h2, h3]
          rw [hs]
          refine ⟨fun k hk1 _ _ hk4 => statGet_bump2_ne _ hk1 hk4, rfl, rfl, ?_, ?_, ?_, ?_⟩
          · rw [statGet_bump_ne _ (by simp : ("compact_events" : String) ≠ "compact_triggered"),
              statGet_bump_self]
            simp [h0]
          · rw [statGet_bump2_ne _ (by simp) (by simp)]
            simp [h1]
          · rw [statGet_bump2_ne _ (by simp) (by simp)]
            simp [h2]
          · rw [statGet_bump_self,
              statGet_bump_ne _ (by simp : ("compact_triggered" : String) ≠ "compact_events")]
            simp [h0, h1, h2, h3]
        · have hs : compactStep ts level msg entry m =
              { m with
                compact_events := dpush compactEventsMaxlen m.compact_events ⟨ts, level, msg, entry⟩,
                stats := bump m.stats "compact_events" } := by
            simp [compactStep, h0, h1, h2, h3]
          rw [hs]
          refine ⟨fun k hk1 _ _ _ => statGet_bump_ne _ hk1, rfl, rfl, ?_, ?_, ?_, ?_⟩
          · rw [statGet_bump_self]
            simp [h0]
          · rw [statGet_bump_ne _ (by simp : ("compact_started" : String) ≠ "compact_events")]
            simp [h1]
          · rw [statGet_bump_ne _ (by simp : ("compact_completed" : String) ≠ "compact_events")]
            simp [h2]
          · rw [statGet_bump_ne _ (by simp : ("compact_triggered" : String) ≠ "compact_events")]
            simp [h3]
  · have hs : compactStep ts level msg entry m = m := by
      simp [compactStep, h0]
    rw [hs]
    exact ⟨fun _ _ _ _ _ => rfl, rfl, rfl, by simp [h0], by simp [h0], by simp [h0],
      by simp [h0]⟩

theorem errorStep_spec (ts : JValue) (level msg : String) (entry : JDict) (m : MonitorStats) :
    (∀ k, k ≠ "total_errors" →
        statGet (errorStep ts level msg entry m).stats k = statGet m.stats k) ∧
    (errorStep ts level msg entry m).compact_events = m.compact_events ∧
    (errorStep ts level msg entry m).get_collection_events = m.get_collection_events ∧
    statGet (errorStep ts level msg entry m).stats "total_errors"
      = statGet m.stats "total_errors" + (if level == "ERROR" then 1 else 0) := by
  by_cases h : (level == "ERROR") = true
  · have hs : errorStep ts level msg entry m =
        { m with
          errors := dpush errorsMaxlen m.errors ⟨ts, msg, entry⟩,
          stats := bump m.stats "total_errors" } := by
      simp [errorStep, h]
    rw [hs]
    exact ⟨fun k hk => statGet_bump_ne _ hk, rfl, rfl, by rw [statGet_bump_self]; simp [h]⟩
  · have hs : errorStep ts level msg entry m = m := by
      simp [errorStep, h]
    rw [hs]
    exact ⟨fun _ _ => rfl, rfl, rfl, by simp [h]⟩

theorem lsmStep_spec (msg : String) (m : MonitorStats) :
    (∀ k, k ≠ "lsm_operations" → statGet (lsmStep msg m).stats k = statGet m.stats k) ∧
    (lsmStep msg m).compact_events = m.compact_events ∧
    (lsmStep msg m).errors = m.errors ∧
    (lsmStep msg m).get_collection_events = m.get_collection_events := by
  by_cases h : (strIn "lsm" (pyLower msg) || strIn "sstable" (pyLower msg)
      || strIn "memtable" (pyLower msg)) = true
  · have hs : lsmStep msg m = { m with stats := bump m.stats "lsm_operations" } := by
      simp only [lsmStep, h, if_pos]
    rw [hs]
    exact ⟨fun k hk => statGet_bump_ne _ hk, rfl, rfl, rfl⟩
  · have hs : lsmStep msg m = m := by
      simp [lsmStep, h]
    rw [hs]
    exact ⟨fun _ _ => rfl, rfl, rfl, rfl⟩

theorem collectionStep_spec (ts : JValue) (level msg : String) (entry : JDict)
    (m : MonitorStats) (cal : String) (hcal : fieldStr entry "caller" = some cal) :
    ∃ m', collectionStep ts level msg entry m = some m' ∧
      (∀ k, k ≠ "get_collection_errors" → k ≠ "get_collection_success" →
        statGet m'.stats k = statGet m.stats k) ∧
      m'.compact_events = m.compact_events ∧
      m'.errors = m.errors ∧
      statGet m'.stats "get_collection_errors" = statGet m.stats "get_collection_errors"
        + (if strIn "collection" (pyLower msg)
              && (strIn "get" (pyLower msg) || strIn "GetCollection" cal)
              && (level == "ERROR") then 1 else 0) ∧
      statGet m'.stats "get_collection_success" = statGet m.stats "get_collection_success"
        + (if strIn "collection" (pyLower msg)
              && (strIn "get" (pyLower msg) || strIn "GetCollection" cal)
              && !(level == "ERROR") then 1 else 0) := by
  by_cases h0 : strIn "collection" (pyLower msg) = true
  · by_cases hg : (strIn "get" (pyLower msg) || strIn "GetCollection" cal) = true
    · by_cases he : (level == "ERROR") = true
      · refine ⟨{ m with
            get_collection_events :=
              dpush getCollectionEventsMaxlen m.get_collection_events ⟨ts, level, msg, entry⟩,
            stats := bump m.stats "get_collection_errors" }, ?_, ?_, rfl, rfl, ?_, ?_⟩
        · rcases Bool.or_eq_true _ _ |>.mp hg with hg1 | hg2
          · simp [collectionStep, h0, hg1, he]
          · simp [collectionStep, h0, hcal, hg2, he]
        · exact fun k hk _ => statGet_bump_ne _ hk
        · rw [statGet_bump_self]
          simp [h0, hg, he]
        · rw [statGet_bump_ne _
            (by simp : ("get_collection_success" : String) ≠ "get_collection_errors")]
          simp [he]
      · refine ⟨{ m with
            get_collection_events :=
              dpush getCollectionEventsMaxlen m.get_collection_events ⟨ts, level, msg, entry⟩,
            stats := bump m.stats "get_collection_success" }, ?_, ?_, rfl, rfl, ?_, ?_⟩
        · rcases Bool.or_eq_true _ _ |>.mp hg with hg1 | hg2
          · simp [collectionStep, h0, hg1, he]
          · simp [collectionStep, h0, hcal, hg2, he]
        · exact fun k _ hk => statGet_bump_ne _ hk
        · rw [statGet_bump_ne _
            (by simp : ("get_collection_errors" : String) ≠ "get_collection_success")]
          simp [he]
        · rw [statGet_bump_self]
          simp [h0, hg, he]
    · have hg1 : strIn "get" (pyLower msg) = false := by
        cases hx : strIn "get" (pyLower msg) with
        | false => rfl
        | true => exact absurd (by rw [hx]; simp) hg
      have hg2 : strIn "GetCollection" cal = false := by
        cases hx : strIn "GetCollection" cal with
        | false => rfl
        | true => exact absurd (by rw [hx]; simp) hg
      refine ⟨m, ?_, fun _ _ _ => rfl, rfl, rfl, ?_, ?_⟩
      · simp [collectionStep, h0, hg1, hcal, hg2]
      · simp [hg]
      · simp [hg]
  · refine ⟨m, ?_, fun _ _ _ => rfl, rfl, rfl, ?_, ?_⟩
    · simp [collectionStep, h0]
    · simp [h0]
    · simp [h0]

/-- Combined effect of one `analyze_log_entry` call on every counter the
claims mention, for an entry whose `level`, `msg` and `caller` fields are
strings (or absent) and which was parsed successfully (no `raw` key). -/
theorem analyze_spec (entry : JDict) (m : MonitorStats) (lvl msgS cal : String)
    (hraw : hasKey entry "raw" = false)
    (hl : fieldStr entry "level" = some lvl)
    (hm : fieldStr entry "msg" = some msgS)
    (hc : fieldStr entry "caller" = some cal) :
    ∃ m', analyze_log_entry entry m = some m' ∧
      statGet m'.stats "compact_events" = statGet m.stats "compact_events"
        + (if strIn "compact" (pyLower msgS) then 1 else 0) ∧
      statGet m'.stats "compact_started" = statGet m.stats "compact_started"
        + (if strIn "compact" (pyLower msgS) && strIn "starting" (pyLower msgS)
           then 1 else 0) ∧
      statGet m'.stats "compact_completed" = statGet m.stats "compact_completed"
        + (if strIn "compact" (pyLower msgS) && !strIn "starting" (pyLower msgS)
            && strIn "completed" (pyLower msgS) then 1 else 0) ∧
      statGet m'.stats "compact_triggered" = statGet m.stats "compact_triggered"
        + (if strIn "compact" (pyLower msgS) && !strIn "starting" (pyLower msgS)
            && !strIn "completed" (pyLower msgS) && strIn "trigger" (pyLower msgS)
           then 1 else 0) ∧
      statGet m'.stats "get_collection_errors" = statGet m.stats "get_collection_errors"
        + (if strIn "collection" (pyLower msgS)
              && (strIn "get" (pyLower msgS) || strIn "GetCollection" cal)
              && (pyUpper lvl == "ERROR") then 1 else 0) ∧
      statGet m'.stats "get_collection_success" = statGet m.stats "get_collection_success"
        + (if strIn "collection" (pyLower msgS)
              && (strIn "get" (pyLower msgS) || strIn "GetCollection" cal)
              && !(pyUpper lvl == "ERROR") then 1 else 0) ∧
      statGet m'.stats "total_errors" = statGet m.stats "total_errors"
        + (if pyUpper lvl == "ERROR" then 1 else 0) := by
  have hrun : analyze_log_entry entry m
      = (collectionStep (dictGetD entry "ts" (JValue.str "")) (pyUpper lvl) msgS entry
          (compactStep (dictGetD entry "ts" (JValue.str "")) (pyUpper lvl) msgS entry
            { m with stats := bump m.stats (levelKey (pyUpper lvl)) })).bind
          (fun m3 => some (lsmStep msgS
            (errorStep (dictGetD entry "ts" (JValue.str "")) (pyUpper lvl) msgS entry m3))) := by
    simp [analyze_log_entry, hraw, hl, hm]
  have hlk : ∀ k : String, k.data.take 10 ≠ "log_level_".data →
      statGet (bump m.stats (levelKey (pyUpper lvl))) k = statGet m.stats k :=
    fun k hk => statGet_bump_ne _ (Ne.symm (levelKey_ne (pyUpper lvl) hk))
  obtain ⟨csF, _, _, csE1, csE2, csE3, csE4⟩ :=
    compactStep_spec (dictGetD entry "ts" (JValue.str "")) (pyUpper lvl) msgS entry
      { m with stats := bump m.stats (levelKey (pyUpper lvl)) }
  obtain ⟨m3, hcol, colF, _, _, colE1, colE2⟩ :=
    collectionStep_spec (dictGetD entry "ts" (JValue.str "")) (pyUpper lvl) msgS entry
      (compactStep (dictGetD entry "ts" (JValue.str "")) (pyUpper lvl) msgS entry
        { m with stats := bump m.stats (levelKey (pyUpper lvl)) }) cal hc
  obtain ⟨erF, _, _, erTE⟩ :=
    errorStep_spec (dictGetD entry "ts" (JValue.str "")) (pyUpper lvl) msgS entry m3
  obtain ⟨lsF, _, _, _⟩ :=
    lsmStep_spec msgS
      (errorStep (dictGetD entry "ts" (JValue.str "")) (pyUpper lvl) msgS entry m3)
  refine ⟨lsmStep msgS
      (errorStep (dictGetD entry "ts" (JValue.str "")) (pyUpper lvl) msgS entry m3),
    by rw [hrun, hcol]; rfl, ?_, ?_, ?_, ?_, ?_, ?_, ?_⟩
  · rw [lsF _ (by simp), erF _ (by simp), colF _ (by simp) (by simp), csE1,
      hlk _ (by decide)]
  · rw [lsF _ (by simp), erF _ (by simp), colF _ (by simp) (by simp), csE2,
      hlk _ (by decide)]
  · rw [lsF _ (by simp), erF _ (by simp), colF _ (by simp) (by simp), csE3,
      hlk _ (by decide)]
  · rw [lsF _ (by simp), erF _ (by simp), colF _ (by simp) (by simp), csE4,
      hlk _ (by decide)]
  · rw [lsF _ (by simp), erF _ (by simp), colE1,
      csF _ (by simp) (by simp) (by simp) (by simp), hlk _ (by decide)]
  · rw [lsF _ (by simp), erF _ (by simp), colE2,
      csF _ (by simp) (by simp) (by simp) (by simp), hlk _ (by decide)]
  · rw [lsF _ (by simp), erTE, colF _ (by simp) (by simp),
      csF _ (by simp) (by simp) (by simp) (by simp), hlk _ (by decide)]

theorem appendedOf_append (cs₁ cs₂ : List TailCycle) :
    appendedOf (cs₁ ++ cs₂) = appendedOf cs₁ ++ appendedOf cs₂ := by
  induction cs₁ with
  | nil => simp [appendedOf]
  | cons c cs ih => cases c <;> simp [appendedOf, ih]

theorem appendedOf_replicate_read (k : Nat) :
    appendedOf (List.replicate k TailCycle.read) = [] := by
  induction k with
  | zero => rfl
  | succ k ih => simpa [List.replicate_succ, appendedOf] using ih

/-! ## The claims -/

/-- C3 (amended): whenever at least one collection-get outcome has been
counted, both reporters print the success rate
`success / (success + failure) * 100`; when both counters are zero no rate
is printed at all (rather than a rate of 0%). -/
theorem C3_success_rate_formula (s f : Nat) (h : 0 < s + f) :
    monitorSuccessRate s f = some ((s : ℚ) / ((s : ℚ) + (f : ℚ)) * 100) ∧
    testerSuccessRate s f = some ((s : ℚ) / ((s : ℚ) + (f : ℚ)) * 100) := by
  constructor <;> simp [monitorSuccessRate, testerSuccessRate, h]

/-- C3 witness: success=97, failure=3 reports exactly 97%. -/
theorem C3_witness :
    0 < 97 + 3 ∧ monitorSuccessRate 97 3 = some 97 ∧ testerSuccessRate 97 3 = some 97 := by
  have h := C3_success_rate_formula 97 3 (by norm_num)
  refine ⟨by norm_num, ?_, ?_⟩
  · rw [h.1]
    exact congrArg some (by norm_num)
  · rw [h.2]
    exact congrArg some (by norm_num)

/-- C3 counterexample: with both counters zero, neither reporter prints a
rate line — the reported rate is not 0%, it is absent. -/
theorem C3_counterexample :
    monitorSuccessRate 0 0 = none ∧ testerSuccessRate 0 0 = none ∧
    monitorSuccessRate 0 0 ≠ some 0 ∧ testerSuccessRate 0 0 ≠ some 0 := by
  refine ⟨rfl, rfl, ?_, ?_⟩ <;> intro h <;> exact Option.noConfusion h

/-- C7: for each configured deque capacity (compact events 100, errors 50,
collection-get events 100), a push always succeeds and keeps the buffer at
most `cap` long, and after more than `cap` pushes the buffer holds exactly
the last `cap` pushed items in insertion order. -/
theorem C7_ring_buffer (cap : Nat)
    (_hcap : cap = compactEventsMaxlen ∨ cap = errorsMaxlen
      ∨ cap = getCollectionEventsMaxlen)
    {α : Type} (init xs : List α) (hinit : init.length ≤ cap) (hN : cap < xs.length) :
    (∀ (buf : List α) (x : α), (dpush cap buf x).length ≤ cap) ∧
    xs.foldl (dpush cap) init = xs.drop (xs.length - cap) ∧
    (xs.foldl (dpush cap) init).length = cap := by
  refine ⟨fun buf x => length_dpush_le cap buf x, ?_, ?_⟩
  · rw [foldl_dpush_full xs init hinit (le_of_lt hN)]
    rfl
  · rw [foldl_dpush_full xs init hinit (le_of_lt hN), length_lastN]
    omega

/-- C7 witness: 51 pushes into the capacity-50 error deque leave exactly
the last 50 pushed items. -/
theorem C7_witness :
    (List.range 51).foldl (dpush errorsMaxlen) ([] : List Nat) = (List.range 51).drop 1 ∧
    ((List.range 51).foldl (dpush errorsMaxlen) ([] : List Nat)).length = errorsMaxlen := by
  have h := C7_ring_buffer errorsMaxlen (Or.inr (Or.inl rfl)) ([] : List Nat)
    (List.range 51) (by decide) (by simp [errorsMaxlen])
  exact ⟨by simpa using h.2.1, h.2.2⟩

/-- C8 (amended): `parse_log_line` is total — JSON decoding errors are
swallowed by the bare `except:` and produce `{"raw": stripped line}` — but
its result is a dict only when the decoded JSON document is an object.  A
line holding a valid non-object JSON document (such as `42`) is returned
as the decoded value itself, not as a dict. -/
theorem C8_parse_log_line_total (line : String) :
    (∀ v, json_loads (pyStrip line) = some v → parse_log_line line = v) ∧
    (json_loads (pyStrip line) = none →
      parse_log_line line = JValue.obj [("raw", JValue.str (pyStrip line))]) := by
  constructor
  · intro v hv
    simp [parse_log_line, hv]
  · intro hv
    simp [parse_log_line, hv]

/-- C8 witness: an undecodable line (also empty and whitespace-only lines)
is wrapped as the raw dict. -/
theorem C8_witness :
    parse_log_line "not json" = JValue.obj [("raw", JValue.str "not json")] ∧
    parse_log_line "" = JValue.obj [("raw", JValue.str "")] ∧
    parse_log_line "  " = JValue.obj [("raw", JValue.str "")] :=
  ⟨(C8_parse_log_line_total "not json").2 rfl,
   (C8_parse_log_line_total "").2 rfl,
   (C8_parse_log_line_total "  ").2 rfl⟩

/-- C8 counterexample: the input `"42"` is valid JSON, decodes to the
number 42, and `parse_log_line` returns that number — not a dict. -/
theorem C8_counterexample :
    parse_log_line "42" = JValue.num "42" ∧ (parse_log_line "42").isObj = false :=
  ⟨rfl, rfl⟩

/-- C9: the unparsed-line check is key-presence based: any entry dict
containing the key `"raw"` — however it arose — makes `analyze_log_entry`
return immediately with the monitor state unchanged. -/
theorem C9_raw_key_short_circuits (entry : JDict) (m : MonitorStats)
    (h : hasKey entry "raw" = true) : analyze_log_entry entry m = some m := by
  simp [analyze_log_entry, h]

/-- C9 witness: a line that is valid JSON, carries `level` and `msg`
fields, and also a `raw` key, parses to a dict that the analyzer skips
without touching any counter or buffer. -/
theorem C9_witness :
    parse_log_line "\x7b\"raw\": \"x\", \"level\": \"ERROR\", \"msg\": \"compact starting\"\x7d"
      = JValue.obj [("raw", JValue.str "x"), ("level", JValue.str "ERROR"),
          ("msg", JValue.str "compact starting")] ∧
    hasKey [("raw", JValue.str "x"), ("level", JValue.str "ERROR"),
        ("msg", JValue.str "compact starting")] "raw" = true ∧
    analyze_log_entry [("raw", JValue.str "x"), ("level", JValue.str "ERROR"),
        ("msg", JValue.str "compact starting")] MonitorStats.init
      = some MonitorStats.init :=
  ⟨rfl, rfl, C9_raw_key_short_circuits _ MonitorStats.init rfl⟩

/-- C1 (amended): a parsed entry whose message contains `"compact"`
(case-insensitively) always increments `compact_events`, but the three
specific counters sit in an `if`/`elif` chain and are NOT independent: at
most one of them is incremented, with `starting` taking priority over
`completed`, and `completed` over `trigger`.  In particular a message
containing both `"starting"` and `"completed"` increments only
`compact_started`. -/
theorem C1_compact_classification (entry : JDict) (m : MonitorStats)
    (lvl msgS cal : String)
    (hraw : hasKey entry "raw" = false)
    (hl : fieldStr entry "level" = some lvl)
    (hm : fieldStr entry "msg" = some msgS)
    (hc : fieldStr entry "caller" = some cal)
    (hcompact : strIn "compact" (pyLower msgS) = true) :
    ∃ m', analyze_log_entry entry m = some m' ∧
      statGet m'.stats "compact_events" = statGet m.stats "compact_events" + 1 ∧
      statGet m'.stats "compact_started" = statGet m.stats "compact_started"
        + (if strIn "starting" (pyLower msgS) then 1 else 0) ∧
      statGet m'.stats "compact_completed" = statGet m.stats "compact_completed"
        + (if !strIn "starting" (pyLower msgS) && strIn "completed" (pyLower msgS)
           then 1 else 0) ∧
      statGet m'.stats "compact_triggered" = statGet m.stats "compact_triggered"
        + (if !strIn "starting" (pyLower msgS) && !strIn "completed" (pyLower msgS)
            && strIn "trigger" (pyLower msgS) then 1 else 0) := by
  obtain ⟨m', hrun, e1, e2, e3, e4, _, _, _⟩ :=
    analyze_spec entry m lvl msgS cal hraw hl hm hc
  refine ⟨m', hrun, ?_, ?_, ?_, ?_⟩
  · rw [e1, if_pos hcompact]
  · rw [e2]
    simp [hcompact]
  · rw [e3]
    simp [hcompact, Bool.and_assoc]
  · rw [e4]
    simp [hcompact, Bool.and_assoc]

/-- C1 witness: the spec's own example `compact starting for segment 3`
bumps `compact_events` and `compact_started`. -/
theorem C1_witness :
    ∃ m', analyze_log_entry
        [("level", JValue.str "INFO"), ("msg", JValue.str "compact starting for segment 3")]
        MonitorStats.init = some m' ∧
      statGet m'.stats "compact_events"
        = statGet MonitorStats.init.stats "compact_events" + 1 ∧
      statGet m'.stats "compact_started" = statGet MonitorStats.init.stats "compact_started"
        + (if strIn "starting" (pyLower "compact starting for segment 3") then 1 else 0) ∧
      statGet m'.stats "compact_completed"
        = statGet MonitorStats.init.stats "compact_completed"
        + (if !strIn "starting" (pyLower "compact starting for segment 3")
            && strIn "completed" (pyLower "compact starting for segment 3") then 1 else 0) ∧
      statGet m'.stats "compact_triggered"
        = statGet MonitorStats.init.stats "compact_triggered"
        + (if !strIn "starting" (pyLower "compact starting for segment 3")
            && !strIn "completed" (pyLower "compact starting for segment 3")
            && strIn "trigger" (pyLower "compact starting for segment 3") then 1 else 0) :=
  C1_compact_classification _ MonitorStats.init "INFO" "compact starting for segment 3" ""
    rfl rfl rfl rfl rfl

/-- C1 counterexample: a message containing `compact`, `starting` AND
`completed` increments `compact_started` but leaves `compact_completed` at
0 — the claim's assertion that both counters are incremented is false on
the code's `elif` chain. -/
theorem C1_counterexample :
    (analyze_log_entry
        [("level", JValue.str "INFO"),
         ("msg", JValue.str "compact starting and completed")]
        MonitorStats.init).map
      (fun m => (statGet m.stats "compact_events", statGet m.stats "compact_started",
        statGet m.stats "compact_completed"))
      = some (1, 1, 0) := rfl

/-- C5: a parsed entry whose message contains `"collection"` and either
contains `"get"` or whose caller contains `"GetCollection"` increments
`get_collection_errors` when the (uppercased) level is `ERROR` and
`get_collection_success` otherwise; independently, every `ERROR`-level
entry increments `total_errors`. -/
theorem C5_collection_get_classification (entry : JDict) (m : MonitorStats)
    (lvl msgS cal : String)
    (hraw : hasKey entry "raw" = false)
    (hl : fieldStr entry "level" = some lvl)
    (hm : fieldStr entry "msg" = some msgS)
    (hc : fieldStr entry "caller" = some cal)
    (hcoll : strIn "collection" (pyLower msgS) = true)
    (hget : (strIn "get" (pyLower msgS) || strIn "GetCollection" cal) = true) :
    ∃ m', analyze_log_entry entry m = some m' ∧
      statGet m'.stats "get_collection_errors" = statGet m.stats "get_collection_errors"
        + (if pyUpper lvl == "ERROR" then 1 else 0) ∧
      statGet m'.stats "get_collection_success" = statGet m.stats "get_collection_success"
        + (if pyUpper lvl == "ERROR" then 0 else 1) ∧
      statGet m'.stats "total_errors" = statGet m.stats "total_errors"
        + (if pyUpper lvl == "ERROR" then 1 else 0) := by
  obtain ⟨m', hrun, _, _, _, _, e5, e6, e7⟩ :=
    analyze_spec entry m lvl msgS cal hraw hl hm hc
  refine ⟨m', hrun, ?_, ?_, e7⟩
  · rw [e5]
    simp [hcoll, hget]
  · rw [e6]
    cases he : (pyUpper lvl == "ERROR") <;> simp [hcoll, hget, he]

/-- C5 witness: the line
`level ERROR, msg "get collection failed: timeout", caller GetCollection`
increments both `get_collection_errors` and `total_errors` (and not
`get_collection_success`). -/
theorem C5_witness :
    ∃ m', analyze_log_entry
        [("level", JValue.str "ERROR"),
         ("msg", JValue.str "get collection failed: timeout"),
         ("caller", JValue.str "GetCollection")]
        MonitorStats.init = some m' ∧
      statGet m'.stats "get_collection_errors"
        = statGet MonitorStats.init.stats "get_collection_errors"
        + (if pyUpper "ERROR" == "ERROR" then 1 else 0) ∧
      statGet m'.stats "get_collection_success"
        = statGet MonitorStats.init.stats "get_collection_success"
        + (if pyUpper "ERROR" == "ERROR" then 0 else 1) ∧
      statGet m'.stats "total_errors" = statGet MonitorStats.init.stats "total_errors"
        + (if pyUpper "ERROR" == "ERROR" then 1 else 0) :=
  C5_collection_get_classification _ MonitorStats.init "ERROR"
    "get collection failed: timeout" "GetCollection" rfl rfl rfl rfl rfl rfl

/-- C2 (amended): an exception inside the tail loop (e.g. a read failure)
is caught by the `except` that wraps the WHOLE loop, which logs it and
returns from `tail_log_file`: the cycle changes nothing except ending the
loop, and no line appended after the failure is ever produced.  Only the
wait for the file to appear is retried; a read failure during tailing is
fatal to the tailing loop (though not to the process). -/
theorem C2_read_failure_ends_tailing (s : TailerState) (cs : List TailCycle)
    (h : s.alive = true) :
    tailStep s TailCycle.readFail = { s with alive := false } ∧
    (cs.foldl tailStep (tailStep s TailCycle.readFail)).emitted = s.emitted ∧
    (cs.foldl tailStep (tailStep s TailCycle.readFail)).alive = false := by
  have hstep : tailStep s TailCycle.readFail = { s with alive := false } := by
    simp [tailStep, h]
  obtain ⟨he, ha⟩ := tail_dead_frame cs (tailStep s TailCycle.readFail) (by rw [hstep])
  exact ⟨hstep, he.trans (by rw [hstep]), ha⟩

/-- C2 witness: after a read failure, later append and read cycles emit
nothing. -/
theorem C2_witness :
    tailStep (openAtEnd ["a"]) TailCycle.readFail = { openAtEnd ["a"] with alive := false } ∧
    ([TailCycle.append ["y"], TailCycle.read].foldl tailStep
        (tailStep (openAtEnd ["a"]) TailCycle.readFail)).emitted = (openAtEnd ["a"]).emitted ∧
    ([TailCycle.append ["y"], TailCycle.read].foldl tailStep
        (tailStep (openAtEnd ["a"]) TailCycle.readFail)).alive = false :=
  C2_read_failure_ends_tailing (openAtEnd ["a"]) [TailCycle.append ["y"], TailCycle.read] rfl

/-- C2 counterexample: after a read failure the loop does NOT continue — a
line appended after the failure is never emitted, refuting "treated as
no-new-data for that cycle only" and "never fatal to tailing". -/
theorem C2_counterexample :
    (tailRun [] [TailCycle.readFail, TailCycle.append ["x"], TailCycle.read,
        TailCycle.read]).emitted = [] ∧
    (tailRun [] [TailCycle.readFail, TailCycle.append ["x"], TailCycle.read,
        TailCycle.read]).alive = false :=
  ⟨rfl, rfl⟩

/-- C6: the tailer starts at the current end of the source, so (first
conjunct) at every point the emitted lines are an initial segment of the
lines appended after tailing started — never pre-existing content, never
reordered, never duplicated — and (second conjunct) once enough read
cycles have run, the emitted lines are exactly the appended lines. -/
theorem C6_tail_from_end_exactly_once (initial : List String) (cs : List TailCycle)
    (hnf : TailCycle.readFail ∉ cs) :
    (tailRun initial cs).emitted
      = (appendedOf cs).take ((tailRun initial cs).pos - initial.length) ∧
    (tailRun initial (cs ++ List.replicate (appendedOf cs).length TailCycle.read)).emitted
      = appendedOf cs := by
  have hinv0 : TailInv initial.length (openAtEnd initial) :=
    ⟨Nat.le_refl _, Nat.le_refl _, by simp [openAtEnd]⟩
  constructor
  · obtain ⟨h1, h2, h3⟩ := tail_foldl_inv cs (openAtEnd initial) hinv0
    show (cs.foldl tailStep (openAtEnd initial)).emitted = _
    rw [h3]
    have hf : (cs.foldl tailStep (openAtEnd initial)).file = initial ++ appendedOf cs := by
      rw [tail_foldl_file]
      rfl
    rw [hf, List.drop_left]
    rfl
  · have hsplit : (cs ++ List.replicate (appendedOf cs).length TailCycle.read).foldl tailStep
          (openAtEnd initial)
        = (List.replicate (appendedOf cs).length TailCycle.read).foldl tailStep
            (cs.foldl tailStep (openAtEnd initial)) :=
      List.foldl_append _ _ _ _
    obtain ⟨p1, p2, _⟩ := tail_foldl_inv cs (openAtEnd initial) hinv0
    have hs1file : (cs.foldl tailStep (openAtEnd initial)).file
        = initial ++ appendedOf cs := by
      rw [tail_foldl_file]
      rfl
    have hs1alive : (cs.foldl tailStep (openAtEnd initial)).alive = true := by
      rw [tail_foldl_alive cs hnf]
      rfl
    have hdrain := tail_drain (appendedOf cs).length (cs.foldl tailStep (openAtEnd initial))
      hs1alive
      (by
        rw [hs1file]
        simp only [List.length_append]
        omega)
      p2
    obtain ⟨q1, q2, q3⟩ := tail_foldl_inv
      (cs ++ List.replicate (appendedOf cs).length TailCycle.read) (openAtEnd initial) hinv0
    have hf2 : ((cs ++ List.replicate (appendedOf cs).length TailCycle.read).foldl tailStep
        (openAtEnd initial)).file = initial ++ appendedOf cs := by
      rw [tail_foldl_file]
      show initial ++ appendedOf (cs ++ List.replicate (appendedOf cs).length TailCycle.read)
        = _
      rw [appendedOf_append, appendedOf_replicate_read, List.append_nil]
    have hpos : ((cs ++ List.replicate (appendedOf cs).length TailCycle.read).foldl tailStep
          (openAtEnd initial)).pos
        = ((cs ++ List.replicate (appendedOf cs).length TailCycle.read).foldl tailStep
          (openAtEnd initial)).file.length := by
      rw [hsplit, hdrain.2, hdrain.1]
    show ((cs ++ List.replicate (appendedOf cs).length TailCycle.read).foldl tailStep
        (openAtEnd initial)).emitted = _
    rw [q3, hpos, hf2]
    simp only [List.length_append, List.drop_left]
    have e : initial.length + (appendedOf cs).length - initial.length
        = (appendedOf cs).length := by omega
    rw [e, List.take_length]

/-- C6 witness: with one line of pre-existing content, two lines appended
after tailing starts interleaved with reads are emitted exactly once each,
in order, and the pre-existing line is never emitted. -/
theorem C6_witness :
    (tailRun ["old"] [TailCycle.append ["a"], TailCycle.read, TailCycle.append ["b"]]).emitted
      = (appendedOf [TailCycle.append ["a"], TailCycle.read, TailCycle.append ["b"]]).take
          ((tailRun ["old"] [TailCycle.append ["a"], TailCycle.read,
            TailCycle.append ["b"]]).pos - ["old"].length) ∧
    (tailRun ["old"] ([TailCycle.append ["a"], TailCycle.read, TailCycle.append ["b"]]
        ++ List.replicate (appendedOf [TailCycle.append ["a"], TailCycle.read,
            TailCycle.append ["b"]]).length TailCycle.read)).emitted
      = appendedOf [TailCycle.append ["a"], TailCycle.read, TailCycle.append ["b"]] :=
  C6_tail_from_end_exactly_once ["old"]
    [TailCycle.append ["a"], TailCycle.read, TailCycle.append ["b"]] (by simp)

/-- C4: while the loop guard (clock and stop flag only) holds, every batch
is processed regardless of outcomes; the inserted-document counter equals
the batch size times the number of successful batches; the error list
holds exactly one `insert_failure` record per failed batch (in order); and
the loop stops exactly at the first iteration whose guard fails — never
because of accumulated failures. -/
theorem C4_stress_loop_failures_nonfatal (B endT : Nat) (es : List BatchEnv)
    (hg : ∀ e ∈ es, stressGuard endT e = true) :
    run_stress_test B endT TesterState.init es
      = es.foldl (stressBody B) TesterState.init ∧
    (run_stress_test B endT TesterState.init es).documents_inserted
      = B * es.countP (fun e => e.insertOk) ∧
    ((run_stress_test B endT TesterState.init es).errors).filter
        (fun r => r.type == "insert_failure")
      = (es.filter (fun e => !e.insertOk)).map
          (fun e => TErrorRec.mk e.now "insert_failure" e.insertErr) ∧
    (∀ e' es₂, stressGuard endT e' = false →
      run_stress_test B endT TesterState.init (es ++ e' :: es₂)
        = es.foldl (stressBody B) TesterState.init) := by
  have hall := run_stress_all B endT es TesterState.init hg
  refine ⟨hall, ?_, ?_, ?_⟩
  · rw [hall, stress_foldl_inserted]
    simp [TesterState.init]
  · rw [hall, stress_foldl_insert_failures]
    simp [TesterState.init]
  · intro e' es₂ he'
    exact run_stress_stops B endT es e' es₂ hg he' _

/-- C4 witness: three in-guard batches of size 10 — success, failure,
success-with-failed-probe — leave the counter at 20 and exactly one
`insert_failure` record; a batch after the deadline is not processed. -/
theorem C4_witness :
    (run_stress_test 10 100 TesterState.init
        [⟨5, true, true, "", true, ""⟩, ⟨6, true, false, "boom", true, ""⟩,
         ⟨7, true, true, "", false, "probe"⟩]).documents_inserted = 20 ∧
    ((run_stress_test 10 100 TesterState.init
        [⟨5, true, true, "", true, ""⟩, ⟨6, true, false, "boom", true, ""⟩,
         ⟨7, true, true, "", false, "probe"⟩]).errors).filter
        (fun r => r.type == "insert_failure")
      = [TErrorRec.mk 6 "insert_failure" "boom"] ∧
    run_stress_test 10 100 TesterState.init
        ([⟨5, true, true, "", true, ""⟩, ⟨6, true, false, "boom", true, ""⟩,
          ⟨7, true, true, "", false, "probe"⟩] ++ ⟨200, true, true, "", true, ""⟩ ::
            [⟨201, true, true, "", true, ""⟩])
      = [⟨5, true, true, "", true, ""⟩, ⟨6, true, false, "boom", true, ""⟩,
         ⟨7, true, true, "", false, "probe"⟩].foldl (stressBody 10) TesterState.init := by
  have h := C4_stress_loop_failures_nonfatal 10 100
    [⟨5, true, true, "", true, ""⟩, ⟨6, true, false, "boom", true, ""⟩,
     ⟨7, true, true, "", false, "probe"⟩] (by decide)
  refine ⟨?_, ?_, ?_⟩
  · rw [h.2.1]
    rfl
  · rw [h.2.2.1]
    rfl
  · exact h.2.2.2 ⟨200, true, true, "", true, ""⟩ [⟨201, true, true, "", true, ""⟩] (by decide)

/-- C10: batch ids are the deterministic function
`doc_<counter+i+1>` (zero-padded) of the `documents_inserted` counter,
which advances only on success; hence the batch after a failed batch
regenerates exactly the failed batch's ids, an all-success run has
globally unique ids, and any failure followed by another batch forces
duplicate ids across batches. -/
theorem C10_batch_ids_counter (B : Nat) (hB : 0 < B) :
    (∀ (s : TesterState) (now : Nat) (msg : String),
      (insert_documents_batch s B now false msg).2.documents_inserted
        = s.documents_inserted ∧
      (insert_documents_batch s B now true msg).2.documents_inserted
        = s.documents_inserted + B) ∧
    (∀ inserted, batchIds inserted B
      = (List.range B).map (fun i => docId (inserted + i + 1))) ∧
    (∀ c oks, runBatches B c (false :: oks) = batchIds c B :: runBatches B c oks) ∧
    (∀ c oks, (∀ o ∈ oks, o = true) → ((runBatches B c oks).flatten).Nodup) ∧
    (∀ c os₁ o os₂, ¬ ((runBatches B c (os₁ ++ false :: o :: os₂)).flatten).Nodup) := by
  refine ⟨?_, fun _ => rfl, runBatches_false_head B,
    fun c oks h => runBatches_nodup B oks c h,
    fun c os₁ o os₂ => runBatches_dup B hB c os₁ o os₂⟩
  intro s now msg
  exact ⟨by simp [insert_documents_batch], by simp [insert_documents_batch]⟩

/-- C10 witness: with batch size 2 the ids are `doc_000001`, `doc_000002`,
…; a failed batch leaves the counter at 7; the batch after a failure
repeats the same ids; two successful batches have four distinct ids; and a
failed batch followed by any other batch yields duplicates. -/
theorem C10_witness :
    (insert_documents_batch ⟨7, 0, 0, 0, []⟩ 2 5 false "boom").2.documents_inserted = 7 ∧
    batchIds 0 2 = ["doc_000001", "doc_000002"] ∧
    runBatches 2 3 (false :: [true]) = batchIds 3 2 :: runBatches 2 3 [true] ∧
    ((runBatches 2 0 [true, true]).flatten).Nodup ∧
    ¬ ((runBatches 2 0 ([] ++ false :: true :: [])).flatten).Nodup := by
  have h := C10_batch_ids_counter 2 (by decide)
  exact ⟨(h.1 ⟨7, 0, 0, 0, []⟩ 5 "boom").1, rfl, h.2.2.1 3 [true],
    h.2.2.2.1 0 [true, true] (by decide), h.2.2.2.2 0 [] true []⟩
